import Mathlib

/-!
Verification of ghost: the demonstration executable `apps/app.cpp`

The translation unit `apps/app.cpp` holds `main` only.  It is linked against
two functions of the repository that it merely declares by header, `add`
(`add.h`, C linkage) and `log_line` (`io/io.hpp`), and it uses
`std::to_string` and `std::string` concatenation from the C++ standard
library.

* `main` is embedded by explicit state passing over `World`, the text on
  standard output together with a ghost trace of the calls `main` makes.
  The two linked functions are a parameter (`Externs`) of `main`.
* `add` and `log_line` are modelled from the written specification, since
  their bodies are not part of the translation unit.
* `to_string` models `std::to_string(int)`, whose result the C++ standard
  fixes as the `%d` rendering of its argument.
-/

namespace Ghost

/-! ## Standard output and the ghost call trace -/

/-- One call made by `main` to a function it is linked against. -/
inductive Call where
  | log_line (text : String)
  | add (a b : Int)
  deriving DecidableEq, Repr

/-- The observable state of a run: the text on standard output, and the
ghost trace of calls made so far (oldest first). -/
structure World where
  stdout : String
  trace : List Call
  deriving DecidableEq, Repr

/-- The two functions `main` is linked against.  `add a b out` gives the
returned int and standard output after the call, `out` being standard output
before it; `log_line s out` gives standard output after the call (the C++
function returns `void`). -/
structure Externs where
  add : Int → Int → String → Int × String
  log_line : String → String → String

/-! ## `std::to_string(int)` -/

/-- The character `'0' + d`. -/
def digitChar (d : Nat) : Char := Char.ofNat (48 + d)

/-- The decimal digits of `n` pushed in front of `acc`, least significant
digit first produced (so most significant first in the result).  `fuel`
bounds the number of digits produced. -/
def to_chars_10 : Nat → Nat → List Char → List Char
  | 0, _, acc => acc
  | fuel + 1, n, acc =>
    if n < 10 then digitChar n :: acc
    else to_chars_10 fuel (n / 10) (digitChar (n % 10) :: acc)

/-- The decimal digits of a natural number. -/
def decimal (n : Nat) : List Char := to_chars_10 (n + 1) n []

/-- Models `std::to_string(int)`: a minus sign for a negative value, then the
decimal digits of its magnitude. -/
def to_string (val : Int) : String :=
  if val < 0 then String.mk ('-' :: decimal val.natAbs)
  else String.mk (decimal val.natAbs)

/-! ## `main` -/

/-- The call `log_line(s)` as made by `main`: the linked function acts on
standard output, and the call is recorded. -/
def call_log_line (E : Externs) (s : String) (σ : World) : World :=
  { stdout := E.log_line s σ.stdout, trace := σ.trace ++ [Call.log_line s] }

/-- The call `add(a, b)` as made by `main`: the returned value, and the world
after the call. -/
def call_add (E : Externs) (a b : Int) (σ : World) : Int × World :=
  ((E.add a b σ.stdout).1,
   { stdout := (E.add a b σ.stdout).2, trace := σ.trace ++ [Call.add a b] })

/-- What a completed run of `main` leaves behind: the returned exit code, the
final value of the local `r`, and the world. -/
structure MainResult where
  exit_code : Int
  r : Int
  world : World

/-- The function `main` of `apps/app.cpp`, statement by statement. -/
def main (E : Externs) (σ₀ : World) : MainResult :=
  let σ₁ := call_log_line E "Ghost in the Shell initializing..." σ₀
  let (r, σ₂) := call_add E 7 5 σ₁
  let σ₃ := call_log_line E ("Computation result: " ++ to_string r) σ₂
  let σ₄ := call_log_line E "System integrity: stable." σ₃
  { exit_code := 0, r := r, world := σ₄ }

/-- One run of the executable.  `main` is declared `int main()`: it has no
`argc`/`argv` parameters and reads no environment variable, so neither the
arguments nor the environment reach it.  `prior` is what standard output
already holds when the process starts.  The result is the exit code and
standard output at exit. -/
def run_process (E : Externs) (_argv : List String)
    (_environ : List (String × String)) (prior : String) : Int × String :=
  let res := main E { stdout := prior, trace := [] }
  (res.exit_code, res.world.stdout)

/-! ## The linked functions, from the specification -/

/-- The least value of a signed integer of `w` bits. -/
def INT_MIN (w : Nat) : Int := -(2 ^ (w - 1))

/-- The greatest value of a signed integer of `w` bits. -/
def INT_MAX (w : Nat) : Int := 2 ^ (w - 1) - 1

/-- Modelled from the spec: the body of `add` (declared in `add.h`) is not in
the translation unit.  The specification has it return `a + b` as a signed
integer of the same width, with two's-complement wraparound as the overflow
policy: the sum is reduced modulo `2 ^ w` and the residue read as a signed
`w`-bit value.  `w` is the width of `int` on the target. -/
def add (w : Nat) (a b : Int) : Int :=
  let m := (a + b) % 2 ^ w
  if m < 2 ^ (w - 1) then m else m - 2 ^ w

/-- Writes a text to an output stream. -/
def write (t : String) (out : String) : String := out ++ t

/-- Modelled from the spec: the body of `log_line` (declared in `io/io.hpp`)
is not in the translation unit.  The specification has it write its text,
followed by a line terminator, to standard output. -/
def log_line (s : String) (out : String) : String :=
  write "\n" (write s out)

/-- The linked functions as the specification describes them, for an `int`
of `w` bits: `add` has no side effect. -/
def specExterns (w : Nat) : Externs :=
  { add := fun a b out => (add w a b, out)
    log_line := log_line }

/-! ## Notions used to state the properties -/

/-- The three lines of the expected output. -/
def expected_output : String :=
  "Ghost in the Shell initializing...\nComputation result: 12\nSystem integrity: stable.\n"

/-- Splits a text into its lines: each line ends at a line terminator, which
is not part of it; text after the last terminator is a last, unterminated
line.  `cur` holds the current line, reversed. -/
def linesAux : List Char → List Char → List (List Char)
  | [], cur => if cur = [] then [] else [cur.reverse]
  | c :: cs, cur =>
    if c = '\n' then cur.reverse :: linesAux cs [] else linesAux cs (c :: cur)

/-- The lines of a text. -/
def lines (s : String) : List String := (linesAux s.data []).map String.mk

/-- The value of a run of decimal digits, most significant first. -/
def decimalValue (ds : List Char) : Nat :=
  ds.foldl (fun v c => 10 * v + (c.toNat - 48)) 0

/-- The texts passed to `log_line`, in call order. -/
def logged : List Call → List String
  | [] => []
  | Call.log_line s :: cs => s :: logged cs
  | Call.add _ _ :: cs => logged cs

/-- The argument pairs passed to `add`, in call order. -/
def added : List Call → List (Int × Int)
  | [] => []
  | Call.log_line _ :: cs => added cs
  | Call.add a b :: cs => (a, b) :: added cs

/-! ## Arithmetic of `add` -/

theorem two_pow_width (w : Nat) (hw : 1 ≤ w) : (2 : Int) ^ w = 2 * 2 ^ (w - 1) := by
  obtain ⟨k, rfl⟩ : ∃ k, w = k + 1 := ⟨w - 1, by omega⟩
  simp [pow_succ, mul_comm]

theorem half_pos (w : Nat) : (0 : Int) < 2 ^ (w - 1) := by positivity

/-- The residue of a sum of two in-range values, by the sign of the sum. -/
theorem residue_cases (M s : Int) (hlo : -(2 * M) ≤ s) (hhi : s < 2 * M) :
    (0 ≤ s ∧ s % (2 * M) = s) ∨ (s < 0 ∧ s % (2 * M) = s + 2 * M) := by
  rcases lt_or_le s 0 with hneg | hpos
  · right
    refine ⟨hneg, ?_⟩
    have h1 : (s + 2 * M) % (2 * M) = s % (2 * M) := by
      simp
    rw [← h1]
    exact Int.emod_eq_of_lt (by omega) (by omega)
  · left
    exact ⟨hpos, Int.emod_eq_of_lt hpos hhi⟩

/-- The value of `add` on in-range arguments, in the three cases of the sum. -/
theorem add_cases (w : Nat) (hw : 1 ≤ w) (a b : Int)
    (ha : INT_MIN w ≤ a ∧ a ≤ INT_MAX w) (hb : INT_MIN w ≤ b ∧ b ≤ INT_MAX w) :
    (INT_MIN w ≤ a + b ∧ a + b ≤ INT_MAX w ∧ add w a b = a + b) ∨
    (INT_MAX w < a + b ∧ add w a b = a + b - 2 ^ w) ∨
    (a + b < INT_MIN w ∧ add w a b = a + b + 2 ^ w) := by
  have h2 := two_pow_width w hw
  have hM := half_pos w
  unfold INT_MIN INT_MAX at *
  unfold add
  simp only []
  rw [h2]
  generalize (2 : Int) ^ (w - 1) = M at *
  rcases residue_cases M (a + b) (by omega) (by omega) with ⟨h0, hr⟩ | ⟨h0, hr⟩
  · rw [hr]
    by_cases hlt : a + b < M
    · left
      rw [if_pos hlt]
      omega
    · right; left
      rw [if_neg hlt]
      omega
  · rw [hr]
    by_cases hlt : a + b + 2 * M < M
    · right; right
      rw [if_pos hlt]
      omega
    · left
      rw [if_neg hlt]
      omega

theorem add_of_fits (w : Nat) (hw : 1 ≤ w) (a b : Int)
    (hlo : INT_MIN w ≤ a + b) (hhi : a + b ≤ INT_MAX w) : add w a b = a + b := by
  have h2 := two_pow_width w hw
  have hM := half_pos w
  unfold INT_MIN INT_MAX at *
  unfold add
  simp only []
  rw [h2]
  generalize (2 : Int) ^ (w - 1) = M at *
  rcases residue_cases M (a + b) (by omega) (by omega) with ⟨h0, hr⟩ | ⟨h0, hr⟩
  · rw [hr, if_pos (by omega)]
  · rw [hr, if_neg (by omega)]
    omega

/-! ## The decimal rendering -/

theorem digitChar_isDigit (d : Nat) (hd : d < 10) : (digitChar d).isDigit = true := by
  interval_cases d <;> decide

theorem digitChar_toNat (d : Nat) (hd : d < 10) : (digitChar d).toNat - 48 = d := by
  interval_cases d <;> decide

theorem digitChar_eq_zero (d : Nat) (hd : d < 10) (h : digitChar d = '0') : d = 0 := by
  interval_cases d <;> first | rfl | (exfalso; revert h; decide)

theorem to_chars_10_acc (fuel : Nat) : ∀ (n : Nat) (acc : List Char),
    to_chars_10 fuel n acc = to_chars_10 fuel n [] ++ acc := by
  induction fuel with
  | zero => intro n acc; simp [to_chars_10]
  | succ fuel ih =>
    intro n acc
    by_cases h : n < 10
    · simp [to_chars_10, h]
    · simp only [to_chars_10, h, if_false]
      rw [ih (n / 10) (digitChar (n % 10) :: acc), ih (n / 10) [digitChar (n % 10)]]
      simp

/-- With enough fuel the digits produced do not depend on the fuel. -/
theorem to_chars_10_fuel (f g : Nat) : ∀ (n : Nat) (acc : List Char), n < f → n < g →
    to_chars_10 f n acc = to_chars_10 g n acc := by
  induction f generalizing g with
  | zero => intro n acc hf; omega
  | succ f ih =>
    intro n acc hf hg
    cases g with
    | zero => omega
    | succ g =>
      by_cases h : n < 10
      · simp [to_chars_10, h]
      · simp only [to_chars_10, h, if_false]
        exact ih g (n / 10) _ (by omega) (by omega)

theorem decimal_lt (n : Nat) (h : n < 10) : decimal n = [digitChar n] := by
  simp [decimal, to_chars_10, h]

theorem decimal_ge (n : Nat) (h : 10 ≤ n) :
    decimal n = decimal (n / 10) ++ [digitChar (n % 10)] := by
  have hn : ¬ n < 10 := by omega
  have h1 : decimal n = to_chars_10 n (n / 10) [digitChar (n % 10)] := by
    simp only [decimal, to_chars_10, hn, if_false]
  rw [h1, to_chars_10_acc, to_chars_10_fuel n (n / 10 + 1) (n / 10) [] (by omega) (by omega)]
  rfl

theorem decimal_ne_nil (n : Nat) : decimal n ≠ [] := by
  by_cases h : n < 10
  · simp [decimal_lt n h]
  · simp [decimal_ge n (by omega)]

theorem decimal_isDigit (n : Nat) : ∀ c ∈ decimal n, c.isDigit = true := by
  induction n using Nat.strong_induction_on with
  | _ n ih =>
    by_cases h : n < 10
    · intro c hc
      rw [decimal_lt n h, List.mem_singleton] at hc
      rw [hc]
      exact digitChar_isDigit n h
    · intro c hc
      rw [decimal_ge n (by omega), List.mem_append, List.mem_singleton] at hc
      rcases hc with hc | hc
      · exact ih (n / 10) (by omega) c hc
      · rw [hc]
        exact digitChar_isDigit _ (Nat.mod_lt _ (by decide))

theorem decimalValue_snoc (ds : List Char) (c : Char) :
    decimalValue (ds ++ [c]) = 10 * decimalValue ds + (c.toNat - 48) := by
  simp [decimalValue, List.foldl_append]

/-- Reading the digits of `n` back gives `n`. -/
theorem decimalValue_decimal (n : Nat) : decimalValue (decimal n) = n := by
  induction n using Nat.strong_induction_on with
  | _ n ih =>
    by_cases h : n < 10
    · rw [decimal_lt n h]
      simp [decimalValue, digitChar_toNat n h]
    · rw [decimal_ge n (by omega), decimalValue_snoc, ih (n / 10) (by omega),
        digitChar_toNat _ (Nat.mod_lt _ (by decide))]
      omega

/-- The rendering of a non-zero number does not start with the digit zero. -/
theorem decimal_head (n : Nat) (hn : n ≠ 0) : (decimal n).head? ≠ some '0' := by
  induction n using Nat.strong_induction_on with
  | _ n ih =>
    by_cases h : n < 10
    · rw [decimal_lt n h]
      intro hc
      simp only [List.head?_cons, Option.some.injEq] at hc
      exact hn (digitChar_eq_zero n h hc)
    · rw [decimal_ge n (by omega)]
      have hne := decimal_ne_nil (n / 10)
      have ih1 := ih (n / 10) (by omega) (by omega)
      cases hd : decimal (n / 10) with
      | nil => exact absurd hd hne
      | cons c cs =>
        rw [hd] at ih1
        simpa using ih1

theorem decimal_zero : decimal 0 = ['0'] := by decide

theorem decimal_injective (m n : Nat) (h : decimal m = decimal n) : m = n := by
  rw [← decimalValue_decimal m, ← decimalValue_decimal n, h]

/-! ## `to_string` -/

theorem to_string_neg (r : Int) (h : r < 0) :
    to_string r = String.mk ('-' :: decimal r.natAbs) := by
  simp [to_string, h]

theorem to_string_nonneg (r : Int) (h : 0 ≤ r) :
    to_string r = String.mk (decimal r.natAbs) := by
  have h1 : ¬ r < 0 := by omega
  simp [to_string, h1]

theorem isDigit_ne_newline (c : Char) (h : c.isDigit = true) : c ≠ '\n' := by
  intro hc
  rw [hc] at h
  exact absurd h (by decide)

theorem isDigit_ne_minus (c : Char) (h : c.isDigit = true) : c ≠ '-' := by
  intro hc
  rw [hc] at h
  exact absurd h (by decide)

/-- The rendering of an integer holds no line terminator. -/
theorem to_string_no_newline (r : Int) : ∀ c ∈ (to_string r).data, c ≠ '\n' := by
  intro c hc
  by_cases h : r < 0
  · rw [to_string_neg r h] at hc
    simp only [List.mem_cons] at hc
    rcases hc with hc | hc
    · rw [hc]; decide
    · exact isDigit_ne_newline c (decimal_isDigit _ c hc)
  · rw [to_string_nonneg r (by omega)] at hc
    exact isDigit_ne_newline c (decimal_isDigit _ c hc)

/-- Different integers have different renderings. -/
theorem to_string_injective (a b : Int) (h : to_string a = to_string b) : a = b := by
  have hhead : ∀ n : Nat, ∀ l : List Char, '-' :: l ≠ decimal n := by
    intro n l hl
    have hmem : '-' ∈ decimal n := by rw [← hl]; exact List.mem_cons_self _ _
    exact isDigit_ne_minus '-' (decimal_isDigit n '-' hmem) rfl
  by_cases ha : a < 0 <;> by_cases hb : b < 0
  · rw [to_string_neg a ha, to_string_neg b hb] at h
    have h1 : decimal a.natAbs = decimal b.natAbs :=
      List.tail_eq_of_cons_eq (congrArg String.data h)
    have := decimal_injective _ _ h1
    omega
  · rw [to_string_neg a ha, to_string_nonneg b (by omega)] at h
    exact absurd (congrArg String.data h) (hhead _ _)
  · rw [to_string_nonneg a (by omega), to_string_neg b hb] at h
    exact absurd (congrArg String.data h).symm (hhead _ _)
  · rw [to_string_nonneg a (by omega), to_string_nonneg b (by omega)] at h
    have := decimal_injective _ _ (congrArg String.data h)
    omega

/-! ## Lines of a text -/

/-- A run without line terminator, followed by a line terminator, is one
line. -/
theorem linesAux_line (l : List Char) (hl : ∀ c ∈ l, c ≠ '\n') :
    ∀ (rest cur : List Char),
      linesAux (l ++ '\n' :: rest) cur = (cur.reverse ++ l) :: linesAux rest [] := by
  induction l with
  | nil => intro rest cur; simp [linesAux]
  | cons c l ih =>
    intro rest cur
    have hc : c ≠ '\n' := hl c (List.mem_cons_self _ _)
    have ih1 := ih (fun d hd => hl d (List.mem_cons_of_mem _ hd)) rest (c :: cur)
    show linesAux (c :: (l ++ '\n' :: rest)) cur = _
    rw [linesAux, if_neg hc, ih1]
    simp

/-- Three terminated lines, none of which holds a line terminator, are the
lines of their concatenation. -/
theorem lines_three (a b c : String) (ha : ∀ x ∈ a.data, x ≠ '\n')
    (hb : ∀ x ∈ b.data, x ≠ '\n') (hc : ∀ x ∈ c.data, x ≠ '\n') :
    lines (a ++ "\n" ++ b ++ "\n" ++ c ++ "\n") = [a, b, c] := by
  have hdata : (a ++ "\n" ++ b ++ "\n" ++ c ++ "\n").data
      = a.data ++ '\n' :: (b.data ++ '\n' :: (c.data ++ '\n' :: [])) := by
    simp [String.data_append]
  unfold lines
  rw [hdata, linesAux_line a.data ha, linesAux_line b.data hb, linesAux_line c.data hc]
  simp [linesAux]

/-! ## `main`, unfolded -/

theorem main_exit_code (E : Externs) (σ : World) : (main E σ).exit_code = 0 := rfl

theorem main_r (E : Externs) (σ : World) :
    (main E σ).r
      = (E.add 7 5 (E.log_line "Ghost in the Shell initializing..." σ.stdout)).1 := rfl

theorem main_trace (E : Externs) (σ : World) :
    (main E σ).world.trace
      = σ.trace ++ [Call.log_line "Ghost in the Shell initializing...", Call.add 7 5,
          Call.log_line ("Computation result: " ++ to_string (main E σ).r),
          Call.log_line "System integrity: stable."] := by
  simp [main, call_log_line, call_add]

theorem main_stdout (E : Externs) (σ : World) :
    (main E σ).world.stdout
      = E.log_line "System integrity: stable."
          (E.log_line ("Computation result: " ++ to_string (main E σ).r)
            (E.add 7 5 (E.log_line "Ghost in the Shell initializing..." σ.stdout)).2) := rfl

theorem logged_append (xs ys : List Call) : logged (xs ++ ys) = logged xs ++ logged ys := by
  induction xs with
  | nil => rfl
  | cons x xs ih => cases x <;> simp [logged, ih]

theorem added_append (xs ys : List Call) : added (xs ++ ys) = added xs ++ added ys := by
  induction xs with
  | nil => rfl
  | cons x xs ih => cases x <;> simp [added, ih]

/-- Twelve fits an `int` of at least five bits. -/
theorem twelve_fits (w : Nat) (hw : 5 ≤ w) : INT_MIN w ≤ 7 + 5 ∧ (7 : Int) + 5 ≤ INT_MAX w := by
  have h16 : (2 : Int) ^ 4 ≤ 2 ^ (w - 1) := pow_le_pow_right₀ (by norm_num) (by omega)
  unfold INT_MIN INT_MAX
  norm_num at h16 ⊢
  omega

/-- What `main` writes when `log_line` appends a terminated line and `add`
writes nothing. -/
theorem main_stdout_of_contract (E : Externs)
    (hadd : ∀ out, (E.add 7 5 out).2 = out)
    (hlog : ∀ s out, E.log_line s out = out ++ s ++ "\n") (σ : World) :
    (main E σ).world.stdout
      = σ.stdout ++ ("Ghost in the Shell initializing..." ++ "\n"
          ++ ("Computation result: " ++ to_string (main E σ).r) ++ "\n"
          ++ "System integrity: stable." ++ "\n") := by
  rw [main_stdout, hlog, hlog, hadd, hlog]
  simp only [String.append_assoc]

/-- The value `main` receives from `add` when `add` returns the sum of its
arguments whenever the sum is representable. -/
theorem main_r_of_contract (w : Nat) (hw : 5 ≤ w) (E : Externs)
    (hadd : ∀ a b out, INT_MIN w ≤ a + b → a + b ≤ INT_MAX w → E.add a b out = (a + b, out))
    (σ : World) : (main E σ).r = 12 := by
  rw [main_r, hadd 7 5 _ (twelve_fits w hw).1 (twelve_fits w hw).2]
  rfl

theorem specExterns_add (w : Nat) (hw : 1 ≤ w) (a b : Int) (out : String)
    (hlo : INT_MIN w ≤ a + b) (hhi : a + b ≤ INT_MAX w) :
    (specExterns w).add a b out = (a + b, out) := by
  show (add w a b, out) = (a + b, out)
  rw [add_of_fits w hw a b hlo hhi]

theorem log_line_eq (s out : String) : log_line s out = out ++ s ++ "\n" := rfl

theorem specExterns_log_line (w : Nat) (s out : String) :
    (specExterns w).log_line s out = out ++ s ++ "\n" := rfl

/-- The text `main` writes when `add` returns twelve. -/
theorem expected_output_eq :
    "Ghost in the Shell initializing..." ++ "\n"
      ++ ("Computation result: " ++ to_string 12) ++ "\n"
      ++ "System integrity: stable." ++ "\n" = expected_output := by decide

theorem result_line_injective (a b : Int)
    (h : "Computation result: " ++ to_string a = "Computation result: " ++ to_string b) :
    a = b := by
  have h1 := congrArg String.data h
  rw [String.data_append, String.data_append] at h1
  have h2 := List.append_cancel_left h1
  exact to_string_injective a b (String.ext h2)

theorem result_line_no_newline (r : Int) :
    ∀ x ∈ ("Computation result: " ++ to_string r).data, x ≠ '\n' := by
  intro x hx
  rw [String.data_append, List.mem_append] at hx
  rcases hx with hx | hx
  · intro hxe
    rw [hxe] at hx
    exact absurd hx (by decide)
  · exact to_string_no_newline r x hx

/-! ## The properties -/

/-- C1: when `add` returns the sum of its arguments (for every representable
sum, without writing) and `log_line` appends its text and a newline, a run of
`main` appends to standard output exactly the text of the three lines
"Ghost in the Shell initializing...", "Computation result: 12" and
"System integrity: stable.", each terminated, and on an empty standard output
these three are all its lines, in this order. -/
theorem main_writes_three_lines (w : Nat) (hw : 5 ≤ w) (E : Externs)
    (hadd : ∀ a b out, INT_MIN w ≤ a + b → a + b ≤ INT_MAX w → E.add a b out = (a + b, out))
    (hlog : ∀ s out, E.log_line s out = out ++ s ++ "\n")
    (prior : String) (tr : List Call) :
    (main E ⟨prior, tr⟩).world.stdout
        = prior ++ "Ghost in the Shell initializing...\nComputation result: 12\nSystem integrity: stable.\n"
      ∧ lines (main E ⟨"", tr⟩).world.stdout
        = ["Ghost in the Shell initializing...", "Computation result: 12",
           "System integrity: stable."] := by
  have h7 : ∀ out, (E.add 7 5 out).2 = out := by
    intro out
    rw [hadd 7 5 out (twelve_fits w hw).1 (twelve_fits w hw).2]
  have hout : ∀ p : String, (main E ⟨p, tr⟩).world.stdout = p ++ expected_output := by
    intro p
    rw [main_stdout_of_contract E h7 hlog, main_r_of_contract w hw E hadd, expected_output_eq]
  refine ⟨hout prior, ?_⟩
  rw [hout ""]
  decide

theorem main_writes_three_lines_witness :
    (main (specExterns 32) ⟨"", []⟩).world.stdout
        = "" ++ "Ghost in the Shell initializing...\nComputation result: 12\nSystem integrity: stable.\n"
      ∧ lines (main (specExterns 32) ⟨"", []⟩).world.stdout
        = ["Ghost in the Shell initializing...", "Computation result: 12",
           "System integrity: stable."] :=
  main_writes_three_lines 32 (by decide) (specExterns 32)
    (fun a b out hlo hhi => specExterns_add 32 (by decide) a b out hlo hhi)
    (fun s out => specExterns_log_line 32 s out) "" []

/-- C2: for an `int` of `w` bits and in-range `a`, `b`, `add` returns an
in-range value congruent to `a + b` modulo `2 ^ w`; it returns `a + b` exactly
when the sum is in range, `a + b - 2 ^ w` when the sum is above the range and
`a + b + 2 ^ w` when it is below.  `add` is a total function: it has no error
result. -/
theorem add_wraparound (w : Nat) (hw : 1 ≤ w) (a b : Int)
    (ha : INT_MIN w ≤ a ∧ a ≤ INT_MAX w) (hb : INT_MIN w ≤ b ∧ b ≤ INT_MAX w) :
    (INT_MIN w ≤ add w a b ∧ add w a b ≤ INT_MAX w)
      ∧ (2 : Int) ^ w ∣ add w a b - (a + b)
      ∧ (add w a b = a + b ↔ INT_MIN w ≤ a + b ∧ a + b ≤ INT_MAX w)
      ∧ (INT_MAX w < a + b → add w a b = a + b - 2 ^ w)
      ∧ (a + b < INT_MIN w → add w a b = a + b + 2 ^ w) := by
  have h2 := two_pow_width w hw
  have hM := half_pos w
  have hc := add_cases w hw a b ha hb
  unfold INT_MIN INT_MAX at *
  rw [h2] at hc ⊢
  generalize (2 : Int) ^ (w - 1) = M at *
  generalize add w a b = v at *
  rcases hc with ⟨h1, h3, h4⟩ | ⟨h1, h4⟩ | ⟨h1, h4⟩
  · refine ⟨by omega, ⟨0, by omega⟩, ⟨fun _ => ⟨h1, h3⟩, fun _ => h4⟩,
      fun h => by omega, fun h => by omega⟩
  · refine ⟨by omega, ⟨-1, by omega⟩, ⟨fun h => by omega, fun h => by omega⟩,
      fun _ => h4, fun h => by omega⟩
  · refine ⟨by omega, ⟨1, by omega⟩, ⟨fun h => by omega, fun h => by omega⟩,
      fun h => by omega, fun _ => h4⟩

theorem add_wraparound_witness :
    (INT_MIN 32 ≤ add 32 2147483647 1 ∧ add 32 2147483647 1 ≤ INT_MAX 32)
      ∧ (2 : Int) ^ 32 ∣ add 32 2147483647 1 - (2147483647 + 1)
      ∧ (add 32 2147483647 1 = 2147483647 + 1
          ↔ INT_MIN 32 ≤ 2147483647 + 1 ∧ (2147483647 : Int) + 1 ≤ INT_MAX 32)
      ∧ (INT_MAX 32 < 2147483647 + 1 → add 32 2147483647 1 = 2147483647 + 1 - 2 ^ 32)
      ∧ ((2147483647 : Int) + 1 < INT_MIN 32 → add 32 2147483647 1 = 2147483647 + 1 + 2 ^ 32) :=
  add_wraparound 32 (by decide) 2147483647 1 (by decide) (by decide)

/-- C3: on an `int` of at least five bits `add(7, 5)` returns 12, and the
local `r` of `main`, linked against this `add`, holds 12. -/
theorem add_seven_five (w : Nat) (hw : 5 ≤ w) (σ : World) :
    add w 7 5 = 12 ∧ (main (specExterns w) σ).r = 12 := by
  have h := add_of_fits w (by omega) 7 5 (twelve_fits w hw).1 (twelve_fits w hw).2
  have h12 : add w 7 5 = 12 := by rw [h]; rfl
  exact ⟨h12, by rw [main_r]; exact h12⟩

theorem add_seven_five_witness :
    add 32 7 5 = 12 ∧ (main (specExterns 32) ⟨"", []⟩).r = 12 :=
  add_seven_five 32 (by decide) ⟨"", []⟩

/-- C4: for every text `s` and every prior content of standard output,
`log_line(s)` leaves standard output equal to the prior content, then `s`,
then one line terminator and nothing else; so it is when `main` makes the
call.  The function yields the new standard output only: it returns no
value. -/
theorem log_line_appends (s out : String) :
    log_line s out = out ++ s ++ "\n"
      ∧ (log_line s out).data = out.data ++ s.data ++ ['\n']
      ∧ (log_line s out).length = out.length + s.length + 1
      ∧ ∀ (w : Nat) (tr : List Call),
          (call_log_line (specExterns w) s ⟨out, tr⟩).stdout = out ++ s ++ "\n" := by
  refine ⟨rfl, ?_, ?_, fun _ _ => rfl⟩
  · rw [log_line_eq, String.data_append, String.data_append]
  · rw [log_line_eq, String.length_append, String.length_append]
    rfl

/-- The digits and sign of the rendering of an integer. -/
theorem to_string_rendering (r : Int) :
    ∃ ds : List Char,
      to_string r = String.mk ((if r < 0 then ['-'] else []) ++ ds)
        ∧ ds ≠ [] ∧ (∀ c ∈ ds, c.isDigit = true) ∧ decimalValue ds = r.natAbs
        ∧ (r = 0 → ds = ['0']) ∧ (r ≠ 0 → ds.head? ≠ some '0') := by
  refine ⟨decimal r.natAbs, ?_, decimal_ne_nil _, decimal_isDigit _, decimalValue_decimal _,
    ?_, ?_⟩
  · by_cases h : r < 0
    · rw [to_string_neg r h, if_pos h]
      rfl
    · rw [to_string_nonneg r (by omega), if_neg h]
      rfl
  · intro h
    rw [h]
    exact decimal_zero
  · intro h
    exact decimal_head _ (by omega)

/-- C5: whatever value `r` the call to `add` returns, the second text `main`
logs is "Computation result: " followed by the base-10 rendering of `r`: a
minus sign exactly when `r` is negative, then a non-empty run `ds` of decimal
digits whose value is the magnitude of `r`, which is the single digit "0" for
`r = 0` and does not start with '0' otherwise; for `r = 12` the text is
"Computation result: 12". -/
theorem second_line_rendering (E : Externs) (σ : World) (r : Int)
    (hr : (E.add 7 5 (E.log_line "Ghost in the Shell initializing..." σ.stdout)).1 = r) :
    ∃ ds : List Char,
      (logged (main E ⟨σ.stdout, []⟩).world.trace)[1]?
          = some ("Computation result: "
              ++ String.mk ((if r < 0 then ['-'] else []) ++ ds))
        ∧ ds ≠ [] ∧ (∀ c ∈ ds, c.isDigit = true) ∧ decimalValue ds = r.natAbs
        ∧ (r = 0 → ds = ['0']) ∧ (r ≠ 0 → ds.head? ≠ some '0')
        ∧ (r = 12 → (logged (main E ⟨σ.stdout, []⟩).world.trace)[1]?
            = some "Computation result: 12") := by
  obtain ⟨ds, hds, h1, h2, h3, h4, h5⟩ := to_string_rendering r
  have hmr : (main E ⟨σ.stdout, []⟩).r = r := by rw [main_r]; exact hr
  have hlog : (logged (main E ⟨σ.stdout, []⟩).world.trace)[1]?
      = some ("Computation result: " ++ to_string r) := by
    rw [main_trace, hmr]
    rfl
  refine ⟨ds, by rw [hlog, hds], h1, h2, h3, h4, h5, ?_⟩
  intro h12
  rw [hlog, h12]
  decide

theorem second_line_rendering_witness :
    ∃ ds : List Char,
      (logged (main (specExterns 32) ⟨"", []⟩).world.trace)[1]?
          = some ("Computation result: "
              ++ String.mk ((if (12 : Int) < 0 then ['-'] else []) ++ ds))
        ∧ ds ≠ [] ∧ (∀ c ∈ ds, c.isDigit = true) ∧ decimalValue ds = (12 : Int).natAbs
        ∧ ((12 : Int) = 0 → ds = ['0']) ∧ ((12 : Int) ≠ 0 → ds.head? ≠ some '0')
        ∧ ((12 : Int) = 12 → (logged (main (specExterns 32) ⟨"", []⟩).world.trace)[1]?
            = some "Computation result: 12") :=
  second_line_rendering (specExterns 32) ⟨"", []⟩ 12 (by decide)

/-- C6: every run of `main`, whatever the linked functions do and whatever
standard output held before, returns exit code 0, and so does the process. -/
theorem main_returns_zero (E : Externs) (σ : World) (argv : List String)
    (environ : List (String × String)) :
    (main E σ).exit_code = 0 ∧ (run_process E argv environ σ.stdout).1 = 0 :=
  ⟨rfl, rfl⟩

/-- C7: under the contracts of the linked functions (`add` returns a
representable sum and writes nothing, `log_line` appends a terminated line),
any two runs of the executable, whatever their arguments, their environment
and the content standard output had before each, return the same exit code
and append the same constant text to standard output. -/
theorem runs_identical (w : Nat) (hw : 5 ≤ w) (E : Externs)
    (hadd : ∀ a b out, INT_MIN w ≤ a + b → a + b ≤ INT_MAX w → E.add a b out = (a + b, out))
    (hlog : ∀ s out, E.log_line s out = out ++ s ++ "\n")
    (argv₁ argv₂ : List String) (environ₁ environ₂ : List (String × String))
    (prior₁ prior₂ : String) :
    (run_process E argv₁ environ₁ prior₁).1 = (run_process E argv₂ environ₂ prior₂).1
      ∧ (run_process E argv₁ environ₁ prior₁).2 = prior₁ ++ expected_output
      ∧ (run_process E argv₂ environ₂ prior₂).2 = prior₂ ++ expected_output := by
  have h7 : ∀ out, (E.add 7 5 out).2 = out := by
    intro out
    rw [hadd 7 5 out (twelve_fits w hw).1 (twelve_fits w hw).2]
  have hout : ∀ p : String, (main E ⟨p, []⟩).world.stdout = p ++ expected_output := by
    intro p
    rw [main_stdout_of_contract E h7 hlog, main_r_of_contract w hw E hadd, expected_output_eq]
  exact ⟨rfl, hout prior₁, hout prior₂⟩

theorem runs_identical_witness :
    (run_process (specExterns 32) ["ghost"] [] "").1
        = (run_process (specExterns 32) ["ghost", "--verbose"] [("HOME", "/root")] "earlier\n").1
      ∧ (run_process (specExterns 32) ["ghost"] [] "").2 = "" ++ expected_output
      ∧ (run_process (specExterns 32) ["ghost", "--verbose"] [("HOME", "/root")] "earlier\n").2
        = "earlier\n" ++ expected_output :=
  runs_identical 32 (by decide) (specExterns 32)
    (fun a b out hlo hhi => specExterns_add 32 (by decide) a b out hlo hhi)
    (fun s out => specExterns_log_line 32 s out)
    ["ghost"] ["ghost", "--verbose"] [] [("HOME", "/root")] "" "earlier\n"

/-- C8: the calls made by one run of `main` are, in order, `log_line` with
the startup message, `add(7, 5)`, `log_line` with the result message and
`log_line` with the status message: three calls of `log_line` and one of
`add`, the latter between the first and the second `log_line`.  The value `r`
that `add` returns appears in the text of the second `log_line` only: the
other calls and the exit code are fixed, and standard output is what the
three `log_line` calls make of it. -/
theorem main_call_trace (E : Externs) (prior : String) :
    (main E ⟨prior, []⟩).world.trace
        = [Call.log_line "Ghost in the Shell initializing...", Call.add 7 5,
           Call.log_line ("Computation result: " ++ to_string (main E ⟨prior, []⟩).r),
           Call.log_line "System integrity: stable."]
      ∧ (logged (main E ⟨prior, []⟩).world.trace).length = 3
      ∧ added (main E ⟨prior, []⟩).world.trace = [(7, 5)]
      ∧ (main E ⟨prior, []⟩).r
          = (E.add 7 5 (E.log_line "Ghost in the Shell initializing..." prior)).1
      ∧ (main E ⟨prior, []⟩).exit_code = 0
      ∧ (main E ⟨prior, []⟩).world.stdout
          = E.log_line "System integrity: stable."
              (E.log_line ("Computation result: " ++ to_string (main E ⟨prior, []⟩).r)
                (E.add 7 5 (E.log_line "Ghost in the Shell initializing..." prior)).2) := by
  have ht := main_trace E ⟨prior, []⟩
  refine ⟨by rw [ht]; rfl, by rw [ht]; rfl, by rw [ht]; rfl, rfl, rfl, rfl⟩

/-- C9: when `add` writes nothing and `log_line` appends a terminated line,
the call to `add` leaves standard output as it was, and the lines `main`
writes are the literal "Ghost in the Shell initializing...", the result line
of the value `add` returned, and the literal "System integrity: stable.":
the first and third do not depend on that value, and the second differs for
different values. -/
theorem add_frame (E : Externs) (hadd : ∀ a b out, (E.add a b out).2 = out)
    (hlog : ∀ s out, E.log_line s out = out ++ s ++ "\n") (σ : World) :
    (call_add E 7 5 σ).2.stdout = σ.stdout
      ∧ lines (main E ⟨"", σ.trace⟩).world.stdout
        = ["Ghost in the Shell initializing...",
           "Computation result: " ++ to_string (main E ⟨"", σ.trace⟩).r,
           "System integrity: stable."]
      ∧ ∀ E' : Externs, (∀ a b out, (E'.add a b out).2 = out) →
          (∀ s out, E'.log_line s out = out ++ s ++ "\n") →
          (main E' ⟨"", σ.trace⟩).r ≠ (main E ⟨"", σ.trace⟩).r →
          (lines (main E' ⟨"", σ.trace⟩).world.stdout)[0]?
              = (lines (main E ⟨"", σ.trace⟩).world.stdout)[0]?
            ∧ (lines (main E' ⟨"", σ.trace⟩).world.stdout)[1]?
              ≠ (lines (main E ⟨"", σ.trace⟩).world.stdout)[1]?
            ∧ (lines (main E' ⟨"", σ.trace⟩).world.stdout)[2]?
              = (lines (main E ⟨"", σ.trace⟩).world.stdout)[2]? := by
  have hlines : ∀ F : Externs, (∀ a b out, (F.add a b out).2 = out) →
      (∀ s out, F.log_line s out = out ++ s ++ "\n") →
      lines (main F ⟨"", σ.trace⟩).world.stdout
        = ["Ghost in the Shell initializing...",
           "Computation result: " ++ to_string (main F ⟨"", σ.trace⟩).r,
           "System integrity: stable."] := by
    intro F hF hG
    rw [main_stdout_of_contract F (fun out => hF 7 5 out) hG]
    have h0 : ∀ t : String, ("" : String) ++ t = t := fun t => String.ext (by simp)
    show lines ("" ++ _) = _
    rw [h0]
    exact lines_three _ _ _ (by decide) (result_line_no_newline _) (by decide)
  refine ⟨hadd 7 5 σ.stdout, hlines E hadd hlog, ?_⟩
  intro E' hadd' hlog' hne
  rw [hlines E hadd hlog, hlines E' hadd' hlog']
  refine ⟨rfl, ?_, rfl⟩
  intro h
  simp only [List.getElem?_cons_succ, List.getElem?_cons_zero, Option.some.injEq] at h
  exact hne (result_line_injective _ _ h)

theorem add_frame_witness :
    (call_add (specExterns 32) 7 5 ⟨"", []⟩).2.stdout = ""
      ∧ lines (main (specExterns 32) ⟨"", []⟩).world.stdout
        = ["Ghost in the Shell initializing...",
           "Computation result: " ++ to_string (main (specExterns 32) ⟨"", []⟩).r,
           "System integrity: stable."]
      ∧ (lines (main ⟨fun a b out => (a + b + 1, out), log_line⟩ ⟨"", []⟩).world.stdout)[1]?
        ≠ (lines (main (specExterns 32) ⟨"", []⟩).world.stdout)[1]? :=
  have h := add_frame (specExterns 32) (fun _ _ _ => rfl) (fun _ _ => rfl) ⟨"", []⟩
  ⟨h.1, h.2.1,
   (h.2.2 ⟨fun a b out => (a + b + 1, out), log_line⟩ (fun _ _ _ => rfl) (fun _ _ => rfl)
      (by decide)).2.1⟩

end Ghost
